import Mathlib

/-!
Shallow embedding of `src/wallet/walletdb.cpp` (wallet record codec, load
pipeline, recovery filter, transaction zapping, crypted-key writing and
backup retention), together with theorems settling the frozen claims.

Serialization of the individual domain types (`CWalletTx`, `CPubKey`,
`CKeyMetadata`, ...) lives outside this file's source; a record is therefore
embedded as its already-parsed content, with explicit fields standing for the
results of the external checks the code consults (`CPubKey::IsValid`,
`CheckTransaction`, `CKey::Load`, `CWallet::LoadKey`, ...).  A record whose
byte stream throws during deserialization is embedded as `Rec.malformedRec`
carrying the type tag parsed before the throw (the empty string when the tag
itself is unreadable).  The hash function `Hash` used for the key integrity
check is an explicit parameter `hashFn`.
-/

/-- Outcome enumeration mirroring `DBErrors` from `walletdb.h`
(`DB_LOAD_OK`, `DB_CORRUPT`, `DB_NONCRITICAL_ERROR`, `DB_TOO_NEW`,
`DB_LOAD_FAIL`, `DB_NEED_REWRITE`). -/
inductive DBErrors where
  | LOAD_OK
  | CORRUPT
  | NONCRITICAL_ERROR
  | TOO_NEW
  | LOAD_FAIL
  | NEED_REWRITE
  deriving DecidableEq, Repr

/-- Mirror of `CWalletScanState` (walletdb.cpp lines 155-169). -/
structure CWalletScanState where
  nKeys : Nat
  nCKeys : Nat
  nWatchKeys : Nat
  nKeyMeta : Nat
  m_unknown_records : Nat
  fIsEncrypted : Bool
  fAnyUnordered : Bool
  nFileVersion : Int
  vWalletUpgrade : List Nat
  deriving DecidableEq, Repr

/-- The default-constructed `CWalletScanState`. -/
def initWss : CWalletScanState := ⟨0, 0, 0, 0, 0, false, false, 0, []⟩

/-- The slice of the external in-memory wallet model (`CWallet`) that the
load pipeline mutates: master-key ids, the transaction map (hash together
with `fTimeReceivedIsTxTime` and `nOrderPos`), version fields and the
various loaded collections. -/
structure Wallet where
  mapMasterKeys : List Nat
  nMasterKeyMaxID : Nat
  mapWallet : List (Nat × Int × Int)
  walletVersion : Int
  nMinVersion : Int
  loadedKeys : List (List Nat)
  cryptedKeys : List (List Nat)
  watchOnly : List Nat
  cscripts : List Nat
  keyPool : List Int
  orderPosNext : Int
  hdchainSet : Bool
  addressNames : List (String × String)
  addressPurposes : List (String × String)
  destData : List ((String × String) × String)
  deriving DecidableEq, Repr

/-- A wallet model with nothing loaded. -/
def emptyWallet : Wallet := ⟨[], 0, [], 0, 0, [], [], [], [], [], 0, false, [], [], []⟩

/-- Parsed content of a `key`/`wkey` record (walletdb.cpp lines 253-316).
`trailingHash` is the optional integrity hash at the end of the value
stream (`none` when the stream ends before it, the legacy shape);
`loadSkipOk`/`loadFullOk` stand for the result of the external
`CKey::Load` with `fSkipCheck` true resp. false, and `loadKeyOk` for
`CWallet::LoadKey`. -/
structure KeyData where
  pubValid : Bool
  pub : List Nat
  priv : List Nat
  trailingHash : Option Nat
  loadSkipOk : Bool
  loadFullOk : Bool
  loadKeyOk : Bool
  deriving DecidableEq, Repr

/-- Parsed content of a `tx` record (walletdb.cpp lines 192-242).
`txHash` is the recomputed `wtx.GetHash()`, `checkOk` the result of the
external `CheckTransaction`-and-`state.IsValid` structural check,
`marker` the loaded `fTimeReceivedIsTxTime` field, `extra` the three
legacy trailing fields when the value stream is nonempty after the
transaction. -/
structure TxData where
  txHash : Nat
  checkOk : Bool
  marker : Int
  extra : Option (Int × Int × String)
  nOrderPos : Int
  deriving DecidableEq, Repr

/-- One record of the wallet store, as parsed by `ReadKeyValue`:
one constructor per recognized type tag, plus `otherRec` for an
unrecognized tag and `malformedRec` for a record whose deserialization
throws (carrying the tag parsed before the throw). -/
inductive Rec where
  | nameRec (addr nm : String)
  | purposeRec (addr p : String)
  | txRec (hash : Nat) (d : TxData)
  | watchsRec (script : Nat) (fYes : Char)
  | keyRec (d : KeyData)
  | wkeyRec (d : KeyData)
  | mkeyRec (nID : Nat)
  | ckeyRec (pubValid : Bool) (pub : List Nat) (loadOk : Bool)
  | keymetaRec (pub : List Nat)
  | watchmetaRec (script : Nat)
  | defaultkeyRec (pubValid : Bool)
  | poolRec (idx : Int)
  | versionRec (v : Int)
  | cscriptRec (h : Nat) (loadOk : Bool)
  | orderposnextRec (v : Int)
  | destdataRec (addr k v : String)
  | hdchainRec
  | flagsRec (tolerable : Bool)
  | otherRec (tag : String)
  | malformedRec (tag : String)
  deriving DecidableEq, Repr

/-- The type tag of a record: the first element of its serialized key
(`strType` in `ReadKeyValue`). -/
def Rec.tag : Rec → String
  | nameRec _ _ => "name"
  | purposeRec _ _ => "purpose"
  | txRec _ _ => "tx"
  | watchsRec _ _ => "watchs"
  | keyRec _ => "key"
  | wkeyRec _ => "wkey"
  | mkeyRec _ => "mkey"
  | ckeyRec _ _ _ => "ckey"
  | keymetaRec _ => "keymeta"
  | watchmetaRec _ => "watchmeta"
  | defaultkeyRec _ => "defaultkey"
  | poolRec _ => "pool"
  | versionRec _ => "version"
  | cscriptRec _ _ => "cscript"
  | orderposnextRec _ => "orderposnext"
  | destdataRec _ _ _ => "destdata"
  | hdchainRec => "hdchain"
  | flagsRec _ => "flags"
  | otherRec t => t
  | malformedRec t => t

/-- Mirror of `WalletBatch::IsKeyType` (walletdb.cpp lines 443-447). -/
def WalletBatch.IsKeyType (strType : String) : Bool :=
  strType == "key" || strType == "wkey" || strType == "mkey" || strType == "ckey"

/-- The legacy 10300 → 300 file-version remap applied when reading a
`version` record (walletdb.cpp lines 393-394). -/
def fileVersionRemap (v : Int) : Int := if v = 10300 then 300 else v

/-- The shared tail of the `key`/`wkey` branch of `ReadKeyValue`
(walletdb.cpp lines 276-315): optional integrity-hash comparison against
`hashFn (pub ++ priv)`, then `CKey::Load` with `fSkipCheck` set exactly
when a nonnull trailing hash matched, then `CWallet::LoadKey`. -/
def loadKeyCommon (hashFn : List Nat → Nat) (w : Wallet) (d : KeyData) : Bool × Wallet :=
  let hash := d.trailingHash.getD 0
  if hash ≠ 0 then
    if hashFn (d.pub ++ d.priv) ≠ hash then (false, w)
    else if d.loadSkipOk = false then (false, w)
    else if d.loadKeyOk = false then (false, w)
    else (true, { w with loadedKeys := d.pub :: w.loadedKeys })
  else
    if d.loadFullOk = false then (false, w)
    else if d.loadKeyOk = false then (false, w)
    else (true, { w with loadedKeys := d.pub :: w.loadedKeys })

/-- Mirror of `ReadKeyValue` (walletdb.cpp lines 171-441): decodes one
record, returning the success flag together with the updated scan state
and wallet model (partial mutations that precede a failure point are
applied, as in the source). -/
def ReadKeyValue (hashFn : List Nat → Nat) (w : Wallet) (wss : CWalletScanState) :
    Rec → Bool × CWalletScanState × Wallet
  | Rec.nameRec addr nm =>
      (true, wss, { w with addressNames := (addr, nm) :: w.addressNames })
  | Rec.purposeRec addr p =>
      (true, wss, { w with addressPurposes := (addr, p) :: w.addressPurposes })
  | Rec.txRec hash d =>
      if ¬ (d.checkOk = true ∧ d.txHash = hash) then (false, wss, w)
      else
        let mq : Int × Bool :=
          if 31404 ≤ d.marker ∧ d.marker ≤ 31703 then
            match d.extra with
            | some e => (e.1, true)
            | none => (0, true)
          else (d.marker, false)
        let wss2 := { wss with
          vWalletUpgrade := if mq.2 then wss.vWalletUpgrade ++ [hash] else wss.vWalletUpgrade
          fAnyUnordered := wss.fAnyUnordered || decide (d.nOrderPos = -1) }
        (true, wss2, { w with mapWallet := (hash, mq.1, d.nOrderPos) :: w.mapWallet })
  | Rec.watchsRec script fYes =>
      let wss2 := { wss with nWatchKeys := wss.nWatchKeys + 1 }
      if fYes = '1' then (true, wss2, { w with watchOnly := script :: w.watchOnly })
      else (true, wss2, w)
  | Rec.keyRec d =>
      if d.pubValid = false then (false, wss, w)
      else
        let wss2 := { wss with nKeys := wss.nKeys + 1 }
        let r := loadKeyCommon hashFn w d
        (r.1, wss2, r.2)
  | Rec.wkeyRec d =>
      if d.pubValid = false then (false, wss, w)
      else
        let r := loadKeyCommon hashFn w d
        (r.1, wss, r.2)
  | Rec.mkeyRec nID =>
      if nID ∈ w.mapMasterKeys then (false, wss, w)
      else
        (true, wss,
         { w with
           mapMasterKeys := nID :: w.mapMasterKeys
           nMasterKeyMaxID := if w.nMasterKeyMaxID < nID then nID else w.nMasterKeyMaxID })
  | Rec.ckeyRec pubValid pub loadOk =>
      if pubValid = false then (false, wss, w)
      else
        let wss2 := { wss with nCKeys := wss.nCKeys + 1 }
        if loadOk = false then (false, wss2, w)
        else (true, { wss2 with fIsEncrypted := true },
              { w with cryptedKeys := pub :: w.cryptedKeys })
  | Rec.keymetaRec _ =>
      (true, { wss with nKeyMeta := wss.nKeyMeta + 1 }, w)
  | Rec.watchmetaRec _ =>
      (true, { wss with nKeyMeta := wss.nKeyMeta + 1 }, w)
  | Rec.defaultkeyRec pubValid =>
      (pubValid, wss, w)
  | Rec.poolRec idx =>
      (true, wss, { w with keyPool := idx :: w.keyPool })
  | Rec.versionRec v =>
      (true, { wss with nFileVersion := fileVersionRemap v }, w)
  | Rec.cscriptRec h loadOk =>
      if loadOk then (true, wss, { w with cscripts := h :: w.cscripts })
      else (false, wss, w)
  | Rec.orderposnextRec v =>
      (true, wss, { w with orderPosNext := v })
  | Rec.destdataRec addr k v =>
      (true, wss, { w with destData := ((addr, k), v) :: w.destData })
  | Rec.hdchainRec =>
      (true, wss, { w with hdchainSet := true })
  | Rec.flagsRec tolerable =>
      (tolerable, wss, w)
  | Rec.otherRec tag =>
      if tag = "bestblock" ∨ tag = "bestblock_nomerkle" ∨ tag = "minversion" ∨ tag = "acentry"
      then (true, wss, w)
      else (true, { wss with m_unknown_records := wss.m_unknown_records + 1 }, w)
  | Rec.malformedRec _ => (false, wss, w)

/-- The wallet store as `LoadWallet` observes it: the optional
`minversion` slot, whether `GetCursor` succeeds, the record sequence the
cursor yields, and whether `ReadAtCursor` fails with a hard error after
those records. -/
structure WalletStore where
  minversion : Option Int
  cursorOk : Bool
  records : List Rec
  readError : Bool
  deriving Repr

/-- Per-record scan loop state of `WalletBatch::LoadWallet`
(walletdb.cpp lines 451-508). -/
structure ScanSt where
  wss : CWalletScanState
  wallet : Wallet
  result : DBErrors
  fNoncriticalErrors : Bool
  rescan : Bool
  deriving Repr

/-- One iteration of the record loop of `WalletBatch::LoadWallet`
(walletdb.cpp lines 487-507): decode, and on failure classify by type
tag (key-bearing or `defaultkey` → `CORRUPT`, `flags` → `TOO_NEW`,
anything else → noncritical, with a rescan request for `tx`). -/
def scanStep (hashFn : List Nat → Nat) (st : ScanSt) (r : Rec) : ScanSt :=
  let q := ReadKeyValue hashFn st.wallet st.wss r
  if q.1 then { st with wss := q.2.1, wallet := q.2.2 }
  else if WalletBatch.IsKeyType r.tag || r.tag == "defaultkey" then
    { st with wss := q.2.1, wallet := q.2.2, result := DBErrors.CORRUPT }
  else if r.tag == "flags" then
    { st with wss := q.2.1, wallet := q.2.2, result := DBErrors.TOO_NEW }
  else
    { st with
      wss := q.2.1
      wallet := q.2.2
      fNoncriticalErrors := true
      rescan := st.rescan || (r.tag == "tx") }

/-- A maintenance action performed by the tail of `LoadWallet`
(walletdb.cpp lines 533-548). -/
inductive WAction where
  | updateTimeFirstKey
  | writeTx (hash : Nat)
  | writeVersion (v : Int)
  | reorderTransactions
  deriving DecidableEq, Repr

/-- Everything `WalletBatch::LoadWallet` produces: the returned
`DBErrors`, the mutated wallet model, the final scan state, the
maintenance actions performed after the scan and whether a `-rescan`
was requested. -/
structure LoadResult where
  result : DBErrors
  wallet : Wallet
  wss : CWalletScanState
  actions : List WAction
  rescan : Bool
  deriving Repr

/-- The tail of `WalletBatch::LoadWallet` after the scan loop
(walletdb.cpp lines 518-550): downgrade `LOAD_OK` to
`NONCRITICAL_ERROR` when noncritical errors were seen, store the file
version into the wallet, and — only when the result is still `LOAD_OK`
— perform the maintenance steps (time-of-first-key adjustment, rewrite
of upgraded transactions, the 40000/50000 `NEED_REWRITE` override,
version update, transaction reordering). `reorderResult` stands for the
value of the external `CWallet::ReorderTransactions`. -/
def loadFinalize (clientVersion : Int) (reorderResult : DBErrors) (st : ScanSt) : LoadResult :=
  let result := if st.fNoncriticalErrors = true ∧ st.result = DBErrors.LOAD_OK
                then DBErrors.NONCRITICAL_ERROR else st.result
  let w := { st.wallet with walletVersion := st.wss.nFileVersion }
  if result ≠ DBErrors.LOAD_OK then ⟨result, w, st.wss, [], st.rescan⟩
  else
    let acts1 := if st.wss.nKeys + st.wss.nCKeys + st.wss.nWatchKeys ≠ st.wss.nKeyMeta
                 then [WAction.updateTimeFirstKey] else []
    let acts2 := st.wss.vWalletUpgrade.map WAction.writeTx
    if st.wss.fIsEncrypted = true ∧ (st.wss.nFileVersion = 40000 ∨ st.wss.nFileVersion = 50000)
    then ⟨DBErrors.NEED_REWRITE, w, st.wss, acts1 ++ acts2, st.rescan⟩
    else
      let acts3 := if st.wss.nFileVersion < clientVersion
                   then [WAction.writeVersion clientVersion] else []
      if st.wss.fAnyUnordered = true then
        ⟨reorderResult, w, st.wss, acts1 ++ acts2 ++ acts3 ++ [WAction.reorderTransactions],
         st.rescan⟩
      else ⟨DBErrors.LOAD_OK, w, st.wss, acts1 ++ acts2 ++ acts3, st.rescan⟩

/-- The cursor-and-scan part of `WalletBatch::LoadWallet` (walletdb.cpp
lines 465-516 plus the tail): cursor opening (`CORRUPT` on failure), the
record loop, the `ReadAtCursor` hard-error path (`CORRUPT`, returned
from inside the loop before the wallet version is stored) and otherwise
the finalization tail. -/
def loadScan (hashFn : List Nat → Nat) (clientVersion : Int) (reorderResult : DBErrors)
    (store : WalletStore) (w : Wallet) : LoadResult :=
  if store.cursorOk = false then ⟨DBErrors.CORRUPT, w, initWss, [], false⟩
  else
    let st := store.records.foldl (scanStep hashFn)
      ⟨initWss, w, DBErrors.LOAD_OK, false, false⟩
    if store.readError = true then ⟨DBErrors.CORRUPT, st.wallet, st.wss, [], st.rescan⟩
    else loadFinalize clientVersion reorderResult st

/-- Mirror of `WalletBatch::LoadWallet` (walletdb.cpp lines 449-551):
the `minversion` check against `featureLatest` (`FEATURE_LATEST`,
returning `TOO_NEW` before the cursor is opened), then `LoadMinVersion`
and the scan. `clientVersion` stands for `CLIENT_VERSION`. -/
def WalletBatch.LoadWallet (hashFn : List Nat → Nat) (featureLatest clientVersion : Int)
    (reorderResult : DBErrors) (store : WalletStore) (w0 : Wallet) : LoadResult :=
  match store.minversion with
  | some mv =>
      if mv > featureLatest then ⟨DBErrors.TOO_NEW, w0, initWss, [], false⟩
      else loadScan hashFn clientVersion reorderResult store { w0 with nMinVersion := mv }
  | none => loadScan hashFn clientVersion reorderResult store w0

/-- The wallet model as it stands when the record scan starts: `w0`
after `LoadMinVersion` when a `minversion` record is present. -/
def startWallet (store : WalletStore) (w0 : Wallet) : Wallet :=
  match store.minversion with
  | some mv => { w0 with nMinVersion := mv }
  | none => w0

/-- The scan-loop state at the start of the record loop of
`LoadWallet`. -/
def initScanSt (store : WalletStore) (w0 : Wallet) : ScanSt :=
  ⟨initWss, startWallet store w0, DBErrors.LOAD_OK, false, false⟩

/-- Severity with which the record loop of `LoadWallet` classifies a
decode failure for a record with the given type tag: key-bearing or
`defaultkey` records escalate to `CORRUPT`, `flags` records to
`TOO_NEW`, anything else is a noncritical warning (`none`). -/
def fatalSeverity (tag : String) : Option DBErrors :=
  if WalletBatch.IsKeyType tag || tag == "defaultkey" then some DBErrors.CORRUPT
  else if tag == "flags" then some DBErrors.TOO_NEW
  else none

/-- The records of a scan whose decode fails, in scan order, starting
from the given loop state. -/
def scanFailures (hashFn : List Nat → Nat) : ScanSt → List Rec → List Rec
  | _, [] => []
  | st, r :: rs =>
    (if (ReadKeyValue hashFn st.wallet st.wss r).1 then [] else [r])
      ++ scanFailures hashFn (scanStep hashFn st r) rs

/-- The fatal severities assigned during a scan, in scan order: one
entry per failing record whose tag is key-bearing, `defaultkey` or
`flags`. -/
def scanFatals (hashFn : List Nat → Nat) (st : ScanSt) (rs : List Rec) : List DBErrors :=
  (scanFailures hashFn st rs).filterMap (fun r => fatalSeverity r.tag)

/-- The last element of a list, or the default when it is empty (the
value left in a variable that each list element overwrites in turn). -/
def lastD (l : List DBErrors) (d : DBErrors) : DBErrors := l.foldl (fun _ c => c) d

/-- The raw value of the last `version` record in a record list, if
any. -/
def lastVersionRaw : List Rec → Option Int
  | [] => none
  | r :: rs =>
    match lastVersionRaw rs with
    | some v => some v
    | none =>
      match r with
      | Rec.versionRec v => some v
      | _ => none

/-- Mirror of `WalletBatch::RecoverKeysOnlyFilter` (walletdb.cpp lines
712-733): decode the record through `ReadKeyValue` with a disposable
scan state against the dummy wallet, then keep the record only when its
tag is key-bearing or `hdchain` and the decode succeeded. -/
def WalletBatch.RecoverKeysOnlyFilter (hashFn : List Nat → Nat) (dummyWallet : Wallet)
    (r : Rec) : Bool :=
  let fReadOK := (ReadKeyValue hashFn dummyWallet initWss r).1
  if !(WalletBatch.IsKeyType r.tag) && !(r.tag == "hdchain") then false
  else if fReadOK = false then false
  else true

/-- The merged walk of `WalletBatch::ZapSelectTx` (walletdb.cpp lines
626-642) over the sorted discovered hashes (second list) with the
iterator suffix of the sorted requested hashes (first list): advance the
iterator past smaller entries, break when it is exhausted, erase on a
match (recording a failure when `eraseOk` is false) and push the hash to
the output. -/
def zapWalk (eraseOk : Nat → Bool) : List Nat → List Nat → Bool × List Nat
  | _, [] => (false, [])
  | vin, hash :: rest =>
    match vin.dropWhile (fun x => decide (x < hash)) with
    | [] => (false, [])
    | x :: t =>
      if x = hash then
        ((!(eraseOk hash)) || (zapWalk eraseOk (x :: t) rest).1,
         hash :: (zapWalk eraseOk (x :: t) rest).2)
      else zapWalk eraseOk (x :: t) rest

/-- Mirror of `WalletBatch::ZapSelectTx` (walletdb.cpp lines 612-648):
`findResult` and `vTxHash` stand for the outcome and discovered hash
list of the engine-level `FindWalletTx`; `eraseOk` stands for the
engine-level `EraseTx`. Returns the final `DBErrors` together with
`vTxHashOut`. -/
def WalletBatch.ZapSelectTx (eraseOk : Nat → Bool) (findResult : DBErrors)
    (vTxHash vTxHashIn : List Nat) : DBErrors × List Nat :=
  if findResult ≠ DBErrors.LOAD_OK then (findResult, [])
  else
    let s1 := List.insertionSort (fun a b : Nat => a ≤ b) vTxHash
    let s2 := List.insertionSort (fun a b : Nat => a ≤ b) vTxHashIn
    let r := zapWalk eraseOk s2 s1
    (if r.1 then DBErrors.CORRUPT else DBErrors.LOAD_OK, r.2)

/-- Insert a record key into the store model of immediately-committed
writes (presence-keyed; `WriteIC` overwrite of an existing key leaves
presence unchanged). -/
def insertKV (k : String × Nat) (s : List (String × Nat)) : List (String × Nat) :=
  if k ∈ s then s else k :: s

/-- Erase a record key from the store model (`EraseIC`). -/
def eraseKV (k : String × Nat) (s : List (String × Nat)) : List (String × Nat) :=
  s.filter (fun e => e ≠ k)

/-- Mirror of `WalletBatch::WriteCryptedKey` (walletdb.cpp lines 76-90)
over a store modelled as the list of present record keys
`(type tag, pubkey)`: write `keymeta`, then `ckey` (aborting with
`false` if either write fails, with `okMeta`/`okCkey` standing for the
engine-level write outcomes), then erase the plaintext `key` and `wkey`
records, ignoring the erase results. -/
def WalletBatch.WriteCryptedKey (okMeta okCkey : Bool) (pub : Nat)
    (store : List (String × Nat)) : Bool × List (String × Nat) :=
  if okMeta = false then (false, store)
  else
    let s1 := insertKV ("keymeta", pub) store
    if okCkey = false then (false, s1)
    else
      let s2 := insertKV ("ckey", pub) s1
      let s3 := eraseKV ("key", pub) s2
      let s4 := eraseKV ("wkey", pub) s3
      (true, s4)

/-- A file in the backup directory: its stem (filename minus the final
extension), an identifying path and its last-modification time. -/
structure BackupFile where
  stem : String
  path : Nat
  mtime : Int
  deriving DecidableEq, Repr

/-- Ordering of backup files by last-write time, the key order of the
`folder_set` multimap in `AutoBackupWallet` (walletdb.cpp line 1008). -/
def timeLE (a b : BackupFile) : Prop := a.mtime ≤ b.mtime

instance : DecidableRel timeLE := fun a b => inferInstanceAs (Decidable (a.mtime ≤ b.mtime))

instance : IsTotal BackupFile timeLE := ⟨fun a b => Int.le_total a.mtime b.mtime⟩

instance : IsTrans BackupFile timeLE := ⟨fun _ _ _ h1 h2 => le_trans h1 h2⟩

/-- The reverse loop of `AutoBackupWallet` (walletdb.cpp lines
1028-1045) over the newest-first file list: count each file, keep it
while the counter stays within `nWalletBackups`, otherwise delete it;
a failing delete (`removeOk` false) stores the warning and returns
`false` at once. Returns the success flag, the deleted paths and the
path named in the surfaced failure warning, if any. -/
def sweepLoop (nWalletBackups : Int) (removeOk : Nat → Bool) :
    Int → List BackupFile → Bool × List Nat × Option Nat
  | _, [] => (true, [], none)
  | counter, f :: rest =>
    let c := counter + 1
    if nWalletBackups < c then
      if removeOk f.path then
        let r := sweepLoop nWalletBackups removeOk c rest
        (r.1, f.path :: r.2.1, r.2.2)
      else (false, [], some f.path)
    else sweepLoop nWalletBackups removeOk c rest

/-- The retention part of `AutoBackupWallet` (walletdb.cpp lines
1007-1045): keep only the backup files of the backup directory whose
stem equals the wallet's base file name, sort them by last-write time
(the `folder_set` multimap), then walk them newest first with
`sweepLoop`. `dirFiles` is the directory content after the new backup
has been written. -/
def AutoBackupRetention (nWalletBackups : Int) (walletFileName : String)
    (removeOk : Nat → Bool) (dirFiles : List BackupFile) : Bool × List Nat × Option Nat :=
  let folder_set :=
    List.insertionSort timeLE (dirFiles.filter (fun f => f.stem == walletFileName))
  sweepLoop nWalletBackups removeOk 0 folder_set.reverse

/-- Each branch of the scan loop stores the scan state returned by
`ReadKeyValue`. -/
theorem scanStep_wss (hashFn : List Nat → Nat) (st : ScanSt) (r : Rec) :
    (scanStep hashFn st r).wss = (ReadKeyValue hashFn st.wallet st.wss r).2.1 := by
  unfold scanStep
  by_cases h1 : (ReadKeyValue hashFn st.wallet st.wss r).1
  · simp [h1]
  · by_cases h2 : (WalletBatch.IsKeyType r.tag || r.tag == "defaultkey") = true
    · simp [h1, h2]
    · by_cases h3 : (r.tag == "flags") = true
      · simp [h1, h2, h3]
      · simp [h1, h2, h3]

/-- Each branch of the scan loop stores the wallet returned by
`ReadKeyValue`. -/
theorem scanStep_wallet (hashFn : List Nat → Nat) (st : ScanSt) (r : Rec) :
    (scanStep hashFn st r).wallet = (ReadKeyValue hashFn st.wallet st.wss r).2.2 := by
  unfold scanStep
  by_cases h1 : (ReadKeyValue hashFn st.wallet st.wss r).1
  · simp [h1]
  · by_cases h2 : (WalletBatch.IsKeyType r.tag || r.tag == "defaultkey") = true
    · simp [h1, h2]
    · by_cases h3 : (r.tag == "flags") = true
      · simp [h1, h2, h3]
      · simp [h1, h2, h3]

/-- The scan loop rewrites `result` exactly with the fatal severity of a
failing record, leaving it unchanged otherwise. -/
theorem scanStep_result (hashFn : List Nat → Nat) (st : ScanSt) (r : Rec) :
    (scanStep hashFn st r).result =
      if (ReadKeyValue hashFn st.wallet st.wss r).1 then st.result
      else (fatalSeverity r.tag).getD st.result := by
  unfold scanStep fatalSeverity
  by_cases h1 : (ReadKeyValue hashFn st.wallet st.wss r).1
  · simp [h1]
  · by_cases h2 : (WalletBatch.IsKeyType r.tag || r.tag == "defaultkey") = true
    · simp [h1, h2]
    · by_cases h3 : (r.tag == "flags") = true
      · simp [h1, h2, h3]
      · simp [h1, h2, h3]

/-- The scan loop raises the noncritical-error flag exactly on a failing
record with no fatal severity. -/
theorem scanStep_noncrit (hashFn : List Nat → Nat) (st : ScanSt) (r : Rec) :
    (scanStep hashFn st r).fNoncriticalErrors =
      (st.fNoncriticalErrors
        || (!(ReadKeyValue hashFn st.wallet st.wss r).1 && (fatalSeverity r.tag).isNone)) := by
  unfold scanStep fatalSeverity
  by_cases h1 : (ReadKeyValue hashFn st.wallet st.wss r).1
  · simp [h1]
  · by_cases h2 : (WalletBatch.IsKeyType r.tag || r.tag == "defaultkey") = true
    · simp [h1, h2]
    · by_cases h3 : (r.tag == "flags") = true
      · simp [h1, h2, h3]
      · simp [h1, h2, h3]

/-- Unfolding equation of `scanFailures` on a cons cell. -/
theorem scanFailures_cons (hashFn : List Nat → Nat) (st : ScanSt) (r : Rec) (rs : List Rec) :
    scanFailures hashFn st (r :: rs) =
      (if (ReadKeyValue hashFn st.wallet st.wss r).1 then [] else [r])
        ++ scanFailures hashFn (scanStep hashFn st r) rs := rfl

/-- Unfolding equation of `scanFatals` on a cons cell. -/
theorem scanFatals_cons (hashFn : List Nat → Nat) (st : ScanSt) (r : Rec) (rs : List Rec) :
    scanFatals hashFn st (r :: rs) =
      (if (ReadKeyValue hashFn st.wallet st.wss r).1 then []
       else (fatalSeverity r.tag).toList)
        ++ scanFatals hashFn (scanStep hashFn st r) rs := by
  unfold scanFatals
  rw [scanFailures_cons]
  by_cases h1 : (ReadKeyValue hashFn st.wallet st.wss r).1
  · simp [h1]
  · cases h2 : fatalSeverity r.tag <;> simp [h1, h2]

/-- After the scan loop, `result` is the severity assigned to the last
fatally-failing record, or the starting value when none failed
fatally. -/
theorem foldl_scan_result (hashFn : List Nat → Nat) :
    ∀ (rs : List Rec) (st : ScanSt),
      (rs.foldl (scanStep hashFn) st).result = lastD (scanFatals hashFn st rs) st.result := by
  intro rs
  induction rs with
  | nil => intro st; rfl
  | cons r rs ih =>
    intro st
    rw [List.foldl_cons, ih, scanFatals_cons]
    unfold lastD
    rw [List.foldl_append]
    by_cases h1 : (ReadKeyValue hashFn st.wallet st.wss r).1
    · rw [scanStep_result]
      simp [h1]
    · cases h2 : fatalSeverity r.tag with
      | none => rw [scanStep_result]; simp [h1, h2]
      | some c => rw [scanStep_result]; simp [h1, h2]

/-- After the scan loop, the noncritical-error flag is raised exactly
when some record failed with no fatal severity. -/
theorem foldl_scan_noncrit (hashFn : List Nat → Nat) :
    ∀ (rs : List Rec) (st : ScanSt),
      (rs.foldl (scanStep hashFn) st).fNoncriticalErrors =
        (st.fNoncriticalErrors
          || (scanFailures hashFn st rs).any (fun r => (fatalSeverity r.tag).isNone)) := by
  intro rs
  induction rs with
  | nil => intro st; simp [scanFailures]
  | cons r rs ih =>
    intro st
    rw [List.foldl_cons, ih, scanStep_noncrit, scanFailures_cons]
    by_cases h1 : (ReadKeyValue hashFn st.wallet st.wss r).1
    · simp [h1]
    · simp [h1, Bool.or_assoc]

/-- When the scan already ended with a result other than `LOAD_OK`, the
finalization tail returns that result and performs none of the
maintenance actions (it still stores the file version into the
wallet). -/
theorem loadFinalize_of_ne (clientVersion : Int) (reorderResult : DBErrors) (st : ScanSt)
    (h : st.result ≠ DBErrors.LOAD_OK) :
    loadFinalize clientVersion reorderResult st =
      ⟨st.result, { st.wallet with walletVersion := st.wss.nFileVersion }, st.wss, [],
       st.rescan⟩ := by
  unfold loadFinalize
  simp [h]

/-- When the scan ended `LOAD_OK` but noncritical errors were recorded,
the finalization tail downgrades the result to `NONCRITICAL_ERROR` and
performs none of the maintenance actions. -/
theorem loadFinalize_noncrit (clientVersion : Int) (reorderResult : DBErrors) (st : ScanSt)
    (h1 : st.result = DBErrors.LOAD_OK) (h2 : st.fNoncriticalErrors = true) :
    loadFinalize clientVersion reorderResult st =
      ⟨DBErrors.NONCRITICAL_ERROR,
       { st.wallet with walletVersion := st.wss.nFileVersion }, st.wss, [], st.rescan⟩ := by
  unfold loadFinalize
  simp [h1, h2]

/-- The finalization tail always returns the scan state unchanged and
always stores the scanned file version into the wallet model. -/
theorem loadFinalize_wss (clientVersion : Int) (reorderResult : DBErrors) (st : ScanSt) :
    (loadFinalize clientVersion reorderResult st).wss = st.wss
    ∧ (loadFinalize clientVersion reorderResult st).wallet.walletVersion =
        st.wss.nFileVersion := by
  constructor <;> unfold loadFinalize <;> dsimp only <;> (repeat' split) <;> rfl

/-- When the `minversion` check passes, the cursor opens and no
engine-level read error occurs, `LoadWallet` is the finalization of the
record scan started from the initial loop state. -/
theorem LoadWallet_scan (hashFn : List Nat → Nat) (featureLatest clientVersion : Int)
    (reorderResult : DBErrors) (store : WalletStore) (w0 : Wallet)
    (hmv : ∀ mv, store.minversion = some mv → mv ≤ featureLatest)
    (hc : store.cursorOk = true) (hr : store.readError = false) :
    WalletBatch.LoadWallet hashFn featureLatest clientVersion reorderResult store w0 =
      loadFinalize clientVersion reorderResult
        (store.records.foldl (scanStep hashFn) (initScanSt store w0)) := by
  unfold WalletBatch.LoadWallet loadScan initScanSt startWallet
  cases hms : store.minversion with
  | none => simp [hc, hr]
  | some mv =>
    have hle := hmv mv hms
    simp [hc, hr, not_lt.mpr hle]

/-- The last-element-or-default of a nonempty list is an element of the
list. -/
theorem lastD_mem : ∀ (l : List DBErrors) (d : DBErrors), l ≠ [] → lastD l d ∈ l := by
  intro l
  induction l with
  | nil => intro d h; exact absurd rfl h
  | cons c l ih =>
    intro d _
    unfold lastD
    rw [List.foldl_cons]
    cases hl : l with
    | nil => simp [lastD]
    | cons c2 l2 =>
      have := ih c (by simp [hl])
      rw [hl] at this
      right
      rw [← hl]
      exact hl ▸ this

/-- A fatal severity is always `CORRUPT` or `TOO_NEW`. -/
theorem fatalSeverity_cases (tag : String) (c : DBErrors) (h : fatalSeverity tag = some c) :
    c = DBErrors.CORRUPT ∨ c = DBErrors.TOO_NEW := by
  unfold fatalSeverity at h
  by_cases h1 : (WalletBatch.IsKeyType tag || tag == "defaultkey") = true
  · simp [h1] at h
    exact Or.inl h.symm
  · by_cases h2 : (tag == "flags") = true
    · simp [h1, h2] at h
      exact Or.inr h.symm
    · simp [h1, h2] at h

/-- Every severity recorded by a scan is `CORRUPT` or `TOO_NEW`. -/
theorem scanFatals_cases (hashFn : List Nat → Nat) (st : ScanSt) (rs : List Rec)
    (c : DBErrors) (h : c ∈ scanFatals hashFn st rs) :
    c = DBErrors.CORRUPT ∨ c = DBErrors.TOO_NEW := by
  unfold scanFatals at h
  rcases List.mem_filterMap.mp h with ⟨r, _, hr⟩
  exact fatalSeverity_cases r.tag c hr

/-- `ReadKeyValue` rewrites the scanned file version exactly on a
`version` record, applying the legacy remap, and preserves it on every
other record. -/
theorem readKeyValue_fileVersion (hashFn : List Nat → Nat) (w : Wallet)
    (wss : CWalletScanState) (r : Rec) :
    ((ReadKeyValue hashFn w wss r).2.1).nFileVersion =
      (match r with
       | Rec.versionRec v => fileVersionRemap v
       | _ => wss.nFileVersion) := by
  cases r <;> simp only [ReadKeyValue] <;> (repeat' split) <;> rfl

/-- After the scan loop, the scanned file version is the remapped value
of the last `version` record, or the starting value when there is
none. -/
theorem foldl_scan_fileVersion (hashFn : List Nat → Nat) :
    ∀ (rs : List Rec) (st : ScanSt),
      ((rs.foldl (scanStep hashFn) st).wss).nFileVersion =
        (match lastVersionRaw rs with
         | some v => fileVersionRemap v
         | none => st.wss.nFileVersion) := by
  intro rs
  induction rs with
  | nil => intro st; rfl
  | cons r rs ih =>
    intro st
    rw [List.foldl_cons, ih]
    cases hlv : lastVersionRaw rs with
    | some v => simp [lastVersionRaw, hlv]
    | none =>
      rw [scanStep_wss, readKeyValue_fileVersion]
      cases r <;> simp [lastVersionRaw, hlv]

/-- Claim C1 (counterexample): in a store where a key-bearing record
fails to decode and a later `flags` record also fails, `LoadWallet`
returns `TOO_NEW`, not `CORRUPT` — the per-record classification
overwrites the result, so the claim that a key-bearing decode failure
makes the outcome CORRUPT is false as stated. -/
theorem loadWallet_fatal_overwrite_cx :
    (ReadKeyValue (fun _ => 1) emptyWallet initWss
        (Rec.keyRec ⟨false, [], [], none, true, true, true⟩)).1 = false
    ∧ WalletBatch.IsKeyType (Rec.keyRec ⟨false, [], [], none, true, true, true⟩).tag = true
    ∧ (WalletBatch.LoadWallet (fun _ => 1) 169900 169900 DBErrors.LOAD_OK
        ⟨none, true, [Rec.keyRec ⟨false, [], [], none, true, true, true⟩,
                      Rec.flagsRec false], false⟩ emptyWallet).result = DBErrors.TOO_NEW
    ∧ DBErrors.TOO_NEW ≠ DBErrors.CORRUPT := by
  refine ⟨rfl, rfl, ?_, by decide⟩
  rfl

/-- Claim C1 (amended): when the minversion check passes, the cursor
opens and the scan completes without an engine read error, any decode
failure of a key-bearing (`key`, `wkey`, `mkey`, `ckey`), `defaultkey`
or `flags` record makes the outcome the severity assigned to the last
such failure — `CORRUPT` for key-bearing/`defaultkey`, `TOO_NEW` for
`flags` — so the outcome is `CORRUPT` or `TOO_NEW` and never `LOAD_OK`
nor `NONCRITICAL_ERROR`. -/
theorem loadWallet_fatal_outcome (hashFn : List Nat → Nat)
    (featureLatest clientVersion : Int) (reorderResult : DBErrors)
    (store : WalletStore) (w0 : Wallet)
    (hmv : ∀ mv, store.minversion = some mv → mv ≤ featureLatest)
    (hc : store.cursorOk = true) (hr : store.readError = false)
    (hf : scanFatals hashFn (initScanSt store w0) store.records ≠ []) :
    (WalletBatch.LoadWallet hashFn featureLatest clientVersion reorderResult store w0).result
        = lastD (scanFatals hashFn (initScanSt store w0) store.records) DBErrors.LOAD_OK
    ∧ ((WalletBatch.LoadWallet hashFn featureLatest clientVersion reorderResult store
          w0).result = DBErrors.CORRUPT
       ∨ (WalletBatch.LoadWallet hashFn featureLatest clientVersion reorderResult store
          w0).result = DBErrors.TOO_NEW)
    ∧ (WalletBatch.LoadWallet hashFn featureLatest clientVersion reorderResult store
        w0).result ≠ DBErrors.LOAD_OK
    ∧ (WalletBatch.LoadWallet hashFn featureLatest clientVersion reorderResult store
        w0).result ≠ DBErrors.NONCRITICAL_ERROR := by
  have hres := LoadWallet_scan hashFn featureLatest clientVersion reorderResult store w0 hmv
    hc hr
  have hstres : (store.records.foldl (scanStep hashFn) (initScanSt store w0)).result
      = lastD (scanFatals hashFn (initScanSt store w0) store.records) DBErrors.LOAD_OK := by
    rw [foldl_scan_result]
    rfl
  have hmem := lastD_mem _ DBErrors.LOAD_OK hf
  have hcs := scanFatals_cases hashFn (initScanSt store w0) store.records _ hmem
  have hne : (store.records.foldl (scanStep hashFn) (initScanSt store w0)).result
      ≠ DBErrors.LOAD_OK := by
    rw [hstres]
    rcases hcs with h | h <;> rw [h] <;> decide
  rw [hres, loadFinalize_of_ne clientVersion reorderResult _ hne]
  refine ⟨hstres, ?_, ?_, ?_⟩
  · rw [show (⟨(store.records.foldl (scanStep hashFn) (initScanSt store w0)).result, _, _, _,
        _⟩ : LoadResult).result
        = (store.records.foldl (scanStep hashFn) (initScanSt store w0)).result from rfl,
      hstres]
    exact hcs
  · exact hne
  · rw [show (⟨(store.records.foldl (scanStep hashFn) (initScanSt store w0)).result, _, _, _,
        _⟩ : LoadResult).result
        = (store.records.foldl (scanStep hashFn) (initScanSt store w0)).result from rfl,
      hstres]
    rcases hcs with h | h <;> rw [h] <;> decide

/-- Witness for the amended claim C1 at a concrete store with one
failing `flags` record. -/
theorem loadWallet_fatal_outcome_witness :
    ((WalletBatch.LoadWallet (fun _ => 1) 169900 169900 DBErrors.LOAD_OK
        ⟨none, true, [Rec.flagsRec false], false⟩ emptyWallet).result = DBErrors.CORRUPT
     ∨ (WalletBatch.LoadWallet (fun _ => 1) 169900 169900 DBErrors.LOAD_OK
        ⟨none, true, [Rec.flagsRec false], false⟩ emptyWallet).result = DBErrors.TOO_NEW)
    ∧ (WalletBatch.LoadWallet (fun _ => 1) 169900 169900 DBErrors.LOAD_OK
        ⟨none, true, [Rec.flagsRec false], false⟩ emptyWallet).result
      ≠ DBErrors.NONCRITICAL_ERROR :=
  ⟨(loadWallet_fatal_outcome (fun _ => 1) 169900 169900 DBErrors.LOAD_OK
      ⟨none, true, [Rec.flagsRec false], false⟩ emptyWallet
      (fun mv h => nomatch h) rfl rfl (by decide)).2.1,
   (loadWallet_fatal_outcome (fun _ => 1) 169900 169900 DBErrors.LOAD_OK
      ⟨none, true, [Rec.flagsRec false], false⟩ emptyWallet
      (fun mv h => nomatch h) rfl rfl (by decide)).2.2.2⟩

/-- Claim C2 (counterexample): a store with one noncritically-failing
`name` record and one legacy-window `tx` record with unset order
position loads with outcome `NONCRITICAL_ERROR` and an empty action
list — the queued upgrade hash is not re-persisted, the version is not
updated and no reorder is invoked, contradicting the claim that the
migration steps still run on a `NONCRITICAL_ERROR` load. -/
theorem loadWallet_noncritical_skips_cx :
    (WalletBatch.LoadWallet (fun _ => 1) 169900 169900 DBErrors.LOAD_OK
        ⟨none, true, [Rec.malformedRec "name",
                      Rec.txRec 7 ⟨7, true, 31500, none, -1⟩], false⟩ emptyWallet).result
      = DBErrors.NONCRITICAL_ERROR
    ∧ (WalletBatch.LoadWallet (fun _ => 1) 169900 169900 DBErrors.LOAD_OK
        ⟨none, true, [Rec.malformedRec "name",
                      Rec.txRec 7 ⟨7, true, 31500, none, -1⟩], false⟩ emptyWallet).actions
      = []
    ∧ (WalletBatch.LoadWallet (fun _ => 1) 169900 169900 DBErrors.LOAD_OK
        ⟨none, true, [Rec.malformedRec "name",
                      Rec.txRec 7 ⟨7, true, 31500, none, -1⟩], false⟩ emptyWallet).wss.vWalletUpgrade
      = [7]
    ∧ (WalletBatch.LoadWallet (fun _ => 1) 169900 169900 DBErrors.LOAD_OK
        ⟨none, true, [Rec.malformedRec "name",
                      Rec.txRec 7 ⟨7, true, 31500, none, -1⟩], false⟩ emptyWallet).wss.fAnyUnordered
      = true
    ∧ (0 : Int) < 169900 := by
  refine ⟨rfl, rfl, rfl, rfl, by decide⟩

/-- Claim C2 (amended): when the minversion check passes, the cursor
opens, the scan completes without an engine read error, no record fails
fatally and at least one record fails nonfatally, the outcome is
downgraded from `LOAD_OK` to `NONCRITICAL_ERROR` — and all of the
finalization tail's migration steps are skipped: any outcome other than
`LOAD_OK`, including `NONCRITICAL_ERROR`, short-circuits them, not only
the fatal outcomes `CORRUPT` and `TOO_NEW`. -/
theorem loadWallet_noncritical_downgrade (hashFn : List Nat → Nat)
    (featureLatest clientVersion : Int) (reorderResult : DBErrors)
    (store : WalletStore) (w0 : Wallet)
    (hmv : ∀ mv, store.minversion = some mv → mv ≤ featureLatest)
    (hc : store.cursorOk = true) (hr : store.readError = false)
    (hnofatal : scanFatals hashFn (initScanSt store w0) store.records = [])
    (hfail : scanFailures hashFn (initScanSt store w0) store.records ≠ []) :
    (WalletBatch.LoadWallet hashFn featureLatest clientVersion reorderResult store w0).result
      = DBErrors.NONCRITICAL_ERROR
    ∧ (WalletBatch.LoadWallet hashFn featureLatest clientVersion reorderResult store
        w0).actions = [] := by
  have hres := LoadWallet_scan hashFn featureLatest clientVersion reorderResult store w0 hmv
    hc hr
  have hstres : (store.records.foldl (scanStep hashFn) (initScanSt store w0)).result
      = DBErrors.LOAD_OK := by
    rw [foldl_scan_result, hnofatal]
    rfl
  have hstnc : (store.records.foldl (scanStep hashFn) (initScanSt store w0)).fNoncriticalErrors
      = true := by
    rw [foldl_scan_noncrit]
    rcases List.exists_mem_of_ne_nil _ hfail with ⟨r0, hr0⟩
    have hsev : fatalSeverity r0.tag = none := by
      have := List.filterMap_eq_nil_iff.mp hnofatal r0 hr0
      exact this
    have : (scanFailures hashFn (initScanSt store w0) store.records).any
        (fun r => (fatalSeverity r.tag).isNone) = true :=
      List.any_eq_true.mpr ⟨r0, hr0, by rw [hsev]; rfl⟩
    rw [this]
    rfl
  rw [hres, loadFinalize_noncrit clientVersion reorderResult _ hstres hstnc]
  exact ⟨rfl, rfl⟩

/-- Witness for the amended claim C2 at a concrete store with one
noncritically-failing record. -/
theorem loadWallet_noncritical_downgrade_witness :
    (WalletBatch.LoadWallet (fun _ => 1) 169900 169900 DBErrors.LOAD_OK
        ⟨none, true, [Rec.malformedRec "purpose"], false⟩ emptyWallet).result
      = DBErrors.NONCRITICAL_ERROR
    ∧ (WalletBatch.LoadWallet (fun _ => 1) 169900 169900 DBErrors.LOAD_OK
        ⟨none, true, [Rec.malformedRec "purpose"], false⟩ emptyWallet).actions = [] :=
  loadWallet_noncritical_downgrade (fun _ => 1) 169900 169900 DBErrors.LOAD_OK
    ⟨none, true, [Rec.malformedRec "purpose"], false⟩ emptyWallet
    (fun mv h => nomatch h) rfl rfl (by decide) (by decide)

/-- Claim C4: when the stored `minversion` exceeds the supported maximum
(`FEATURE_LATEST`), `LoadWallet` returns `TOO_NEW` with the wallet model
untouched, a pristine scan state and no maintenance actions — for every
store content, cursor outcome and read-error flag, showing the return
happens before the cursor is opened and before any record is decoded or
applied. -/
theorem loadWallet_minversion_too_new (hashFn : List Nat → Nat)
    (featureLatest clientVersion : Int) (reorderResult : DBErrors)
    (store : WalletStore) (w0 : Wallet) (mv : Int)
    (hm : store.minversion = some mv) (hgt : featureLatest < mv) :
    WalletBatch.LoadWallet hashFn featureLatest clientVersion reorderResult store w0
      = ⟨DBErrors.TOO_NEW, w0, initWss, [], false⟩ := by
  unfold WalletBatch.LoadWallet
  rw [hm]
  simp [hgt]

/-- Witness for claim C4 at a concrete store whose `minversion` is
200000 against a supported maximum of 169900, with a failing cursor and
nonempty record list that are never reached. -/
theorem loadWallet_minversion_too_new_witness :
    WalletBatch.LoadWallet (fun _ => 1) 169900 169900 DBErrors.LOAD_OK
        ⟨some 200000, false, [Rec.versionRec 10300], true⟩ emptyWallet
      = ⟨DBErrors.TOO_NEW, emptyWallet, initWss, [], false⟩ :=
  loadWallet_minversion_too_new (fun _ => 1) 169900 169900 DBErrors.LOAD_OK
    ⟨some 200000, false, [Rec.versionRec 10300], true⟩ emptyWallet 200000 rfl (by decide)

/-- Claim C7: when the last `version` record of the store carries the
legacy sentinel 10300 and the load reaches the finalization tail, the
scanned file version and the version stored into the wallet model are
both 300, not 10300. -/
theorem loadWallet_version_remap (hashFn : List Nat → Nat)
    (featureLatest clientVersion : Int) (reorderResult : DBErrors)
    (store : WalletStore) (w0 : Wallet)
    (hmv : ∀ mv, store.minversion = some mv → mv ≤ featureLatest)
    (hc : store.cursorOk = true) (hr : store.readError = false)
    (hv : lastVersionRaw store.records = some 10300) :
    (WalletBatch.LoadWallet hashFn featureLatest clientVersion reorderResult store
        w0).wss.nFileVersion = 300
    ∧ (WalletBatch.LoadWallet hashFn featureLatest clientVersion reorderResult store
        w0).wallet.walletVersion = 300
    ∧ (300 : Int) ≠ 10300 := by
  have hres := LoadWallet_scan hashFn featureLatest clientVersion reorderResult store w0 hmv
    hc hr
  have hfv : ((store.records.foldl (scanStep hashFn) (initScanSt store w0)).wss).nFileVersion
      = 300 := by
    rw [foldl_scan_fileVersion, hv]
    simp [fileVersionRemap]
  have hw := loadFinalize_wss clientVersion reorderResult
    (store.records.foldl (scanStep hashFn) (initScanSt store w0))
  rw [hres]
  exact ⟨hw.1.symm ▸ hfv, hw.2.symm ▸ hfv, by decide⟩

/-- Witness for claim C7 at a concrete store holding a single `version`
record with value 10300. -/
theorem loadWallet_version_remap_witness :
    (WalletBatch.LoadWallet (fun _ => 1) 169900 169900 DBErrors.LOAD_OK
        ⟨none, true, [Rec.versionRec 10300], false⟩ emptyWallet).wss.nFileVersion = 300
    ∧ (WalletBatch.LoadWallet (fun _ => 1) 169900 169900 DBErrors.LOAD_OK
        ⟨none, true, [Rec.versionRec 10300], false⟩ emptyWallet).wallet.walletVersion = 300
    ∧ (300 : Int) ≠ 10300 :=
  loadWallet_version_remap (fun _ => 1) 169900 169900 DBErrors.LOAD_OK
    ⟨none, true, [Rec.versionRec 10300], false⟩ emptyWallet
    (fun mv h => nomatch h) rfl rfl rfl

/-- Claim C5: a `tx` record passing the structural check whose legacy
field-ordering marker lies in [31404, 31703] decodes successfully, has
its hash appended to the migration-rewrite queue, and is loaded with the
marker reset to 0 when the value stream has no extra trailing fields,
or replaced by the first extra field's value when it does. -/
theorem readKeyValue_tx_legacy_window (hashFn : List Nat → Nat) (w : Wallet)
    (wss : CWalletScanState) (hash : Nat) (d : TxData)
    (hchk : d.checkOk = true) (hh : d.txHash = hash)
    (hlo : 31404 ≤ d.marker) (hhi : d.marker ≤ 31703) :
    (ReadKeyValue hashFn w wss (Rec.txRec hash d)).1 = true
    ∧ ((ReadKeyValue hashFn w wss (Rec.txRec hash d)).2.1).vWalletUpgrade
        = wss.vWalletUpgrade ++ [hash]
    ∧ ((ReadKeyValue hashFn w wss (Rec.txRec hash d)).2.2).mapWallet
        = (hash, (match d.extra with | some e => e.1 | none => 0), d.nOrderPos)
            :: w.mapWallet := by
  cases hex : d.extra with
  | none => simp [ReadKeyValue, hchk, hh, hlo, hhi, hex]
  | some e => simp [ReadKeyValue, hchk, hh, hlo, hhi, hex]

/-- Witness for claim C5 at concrete `tx` records inside the legacy
window, one without extra trailing fields and one with them. -/
theorem readKeyValue_tx_legacy_window_witness :
    (((ReadKeyValue (fun _ => 1) emptyWallet initWss
          (Rec.txRec 7 ⟨7, true, 31500, none, 4⟩)).2.1).vWalletUpgrade = [7]
      ∧ ((ReadKeyValue (fun _ => 1) emptyWallet initWss
          (Rec.txRec 7 ⟨7, true, 31500, none, 4⟩)).2.2).mapWallet = [(7, 0, 4)])
    ∧ ((ReadKeyValue (fun _ => 1) emptyWallet initWss
          (Rec.txRec 9 ⟨9, true, 31404, some (85, 0, "x"), 2⟩)).2.2).mapWallet
        = [(9, 85, 2)] := by
  have h1 := readKeyValue_tx_legacy_window (fun _ => 1) emptyWallet initWss 7
    ⟨7, true, 31500, none, 4⟩ rfl rfl (by decide) (by decide)
  have h2 := readKeyValue_tx_legacy_window (fun _ => 1) emptyWallet initWss 9
    ⟨9, true, 31404, some (85, 0, "x"), 2⟩ rfl rfl (by decide) (by decide)
  exact ⟨⟨h1.2.1, h1.2.2⟩, h2.2.2⟩

/-- Claim C6: for a `key` or `wkey` record with a valid public key,
when a (nonnull) trailing integrity hash is present, decoding succeeds
exactly when that hash equals `hashFn` of pubkey-concatenated-privkey
and the key loads with the recomputation check skipped (a mismatch
fails the record); when the trailing hash is absent, the
recomputation-based `CKey::Load` check gates the record instead, and
the key is still loaded when it passes. -/
theorem readKeyValue_key_integrity (hashFn : List Nat → Nat) (w : Wallet)
    (wss : CWalletScanState) (d : KeyData) (hpv : d.pubValid = true) :
    (∀ h, d.trailingHash = some h → h ≠ 0 →
      ((ReadKeyValue hashFn w wss (Rec.keyRec d)).1 = true
        ↔ (hashFn (d.pub ++ d.priv) = h ∧ d.loadSkipOk = true ∧ d.loadKeyOk = true)))
    ∧ (d.trailingHash = none →
      ((ReadKeyValue hashFn w wss (Rec.keyRec d)).1 = true
        ↔ (d.loadFullOk = true ∧ d.loadKeyOk = true)))
    ∧ (∀ h, d.trailingHash = some h → h ≠ 0 →
      ((ReadKeyValue hashFn w wss (Rec.wkeyRec d)).1 = true
        ↔ (hashFn (d.pub ++ d.priv) = h ∧ d.loadSkipOk = true ∧ d.loadKeyOk = true)))
    ∧ (d.trailingHash = none →
      ((ReadKeyValue hashFn w wss (Rec.wkeyRec d)).1 = true
        ↔ (d.loadFullOk = true ∧ d.loadKeyOk = true)))
    ∧ (d.trailingHash = none →
      ((ReadKeyValue hashFn w wss (Rec.keyRec d)).1 = true →
        ((ReadKeyValue hashFn w wss (Rec.keyRec d)).2.2).loadedKeys
          = d.pub :: w.loadedKeys)) := by
  refine ⟨?_, ?_, ?_, ?_, ?_⟩
  · intro h heq hne
    by_cases hcmp : hashFn (d.pub ++ d.priv) = h <;>
      cases hs : d.loadSkipOk <;> cases hk : d.loadKeyOk <;>
        simp [ReadKeyValue, loadKeyCommon, hpv, heq, hne, hcmp, hs, hk]
  · intro heq
    cases hf : d.loadFullOk <;> cases hk : d.loadKeyOk <;>
      simp [ReadKeyValue, loadKeyCommon, hpv, heq, hf, hk]
  · intro h heq hne
    by_cases hcmp : hashFn (d.pub ++ d.priv) = h <;>
      cases hs : d.loadSkipOk <;> cases hk : d.loadKeyOk <;>
        simp [ReadKeyValue, loadKeyCommon, hpv, heq, hne, hcmp, hs, hk]
  · intro heq
    cases hf : d.loadFullOk <;> cases hk : d.loadKeyOk <;>
      simp [ReadKeyValue, loadKeyCommon, hpv, heq, hf, hk]
  · intro heq
    cases hf : d.loadFullOk <;> cases hk : d.loadKeyOk <;>
      simp [ReadKeyValue, loadKeyCommon, hpv, heq, hf, hk]

/-- Witness for claim C6: a key whose trailing hash matches decodes, a
key whose trailing hash mismatches fails, and a legacy key without a
trailing hash is loaded through the full check. -/
theorem readKeyValue_key_integrity_witness :
    (ReadKeyValue (fun _ => 5) emptyWallet initWss
        (Rec.keyRec ⟨true, [2], [3], some 5, true, true, true⟩)).1 = true
    ∧ (ReadKeyValue (fun _ => 6) emptyWallet initWss
        (Rec.keyRec ⟨true, [2], [3], some 5, true, true, true⟩)).1 ≠ true
    ∧ (ReadKeyValue (fun _ => 5) emptyWallet initWss
        (Rec.keyRec ⟨true, [2], [3], none, false, true, true⟩)).1 = true := by
  have h1 := readKeyValue_key_integrity (fun _ => 5) emptyWallet initWss
    ⟨true, [2], [3], some 5, true, true, true⟩ rfl
  have h2 := readKeyValue_key_integrity (fun _ => 6) emptyWallet initWss
    ⟨true, [2], [3], some 5, true, true, true⟩ rfl
  have h3 := readKeyValue_key_integrity (fun _ => 5) emptyWallet initWss
    ⟨true, [2], [3], none, false, true, true⟩ rfl
  refine ⟨(h1.1 5 rfl (by decide)).mpr ⟨rfl, rfl, rfl⟩, ?_, (h3.2.1 rfl).mpr ⟨rfl, rfl⟩⟩
  intro hx
  have := (h2.1 5 rfl (by decide)).mp hx
  exact absurd this.1 (by decide)

/-- Claim C8: `RecoverKeysOnlyFilter` keeps a record exactly when its
type tag is key-bearing (`key`, `wkey`, `mkey`, `ckey`) or `hdchain`
and the record decodes successfully through `ReadKeyValue` — the same
codec the load pipeline uses — with a disposable scan state; every
other record is dropped. -/
theorem recoverKeysOnlyFilter_spec (hashFn : List Nat → Nat) (dummyWallet : Wallet)
    (r : Rec) :
    WalletBatch.RecoverKeysOnlyFilter hashFn dummyWallet r = true
      ↔ ((WalletBatch.IsKeyType r.tag = true ∨ r.tag = "hdchain")
         ∧ (ReadKeyValue hashFn dummyWallet initWss r).1 = true) := by
  unfold WalletBatch.RecoverKeysOnlyFilter
  by_cases h1 : WalletBatch.IsKeyType r.tag = true <;>
    by_cases h2 : r.tag = "hdchain" <;>
      by_cases h3 : (ReadKeyValue hashFn dummyWallet initWss r).1 = true <;>
        simp [h1, h2, h3]

/-- Membership in the store after an immediately-committed write. -/
theorem mem_insertKV (k x : String × Nat) (s : List (String × Nat)) :
    x ∈ insertKV k s ↔ (x = k ∨ x ∈ s) := by
  by_cases h : k ∈ s
  · simp only [insertKV, if_pos h]
    constructor
    · exact Or.inr
    · rintro (rfl | hx)
      · exact h
      · exact hx
  · simp [insertKV, h]

/-- Membership in the store after an erase. -/
theorem mem_eraseKV (k x : String × Nat) (s : List (String × Nat)) :
    x ∈ eraseKV k s ↔ (x ∈ s ∧ x ≠ k) := by
  simp [eraseKV]

/-- Claim C10: after a successful `WriteCryptedKey` for a public key,
the store holds a `keymeta` and a `ckey` record for it and neither
plaintext record (`key`, `wkey`) remains; when writing `keymeta` or
`ckey` fails, the call returns `false` without erasing anything, so any
plaintext records present beforehand are still present. -/
theorem writeCryptedKey_spec (okMeta okCkey : Bool) (pub : Nat)
    (store : List (String × Nat)) :
    (okMeta = true → okCkey = true →
      ((WalletBatch.WriteCryptedKey okMeta okCkey pub store).1 = true
       ∧ ("keymeta", pub) ∈ (WalletBatch.WriteCryptedKey okMeta okCkey pub store).2
       ∧ ("ckey", pub) ∈ (WalletBatch.WriteCryptedKey okMeta okCkey pub store).2
       ∧ ("key", pub) ∉ (WalletBatch.WriteCryptedKey okMeta okCkey pub store).2
       ∧ ("wkey", pub) ∉ (WalletBatch.WriteCryptedKey okMeta okCkey pub store).2))
    ∧ (okMeta = false ∨ okCkey = false →
      ((WalletBatch.WriteCryptedKey okMeta okCkey pub store).1 = false
       ∧ (("key", pub) ∈ store →
            ("key", pub) ∈ (WalletBatch.WriteCryptedKey okMeta okCkey pub store).2)
       ∧ (("wkey", pub) ∈ store →
            ("wkey", pub) ∈ (WalletBatch.WriteCryptedKey okMeta okCkey pub store).2))) := by
  constructor
  · intro hm hk
    subst hm
    subst hk
    unfold WalletBatch.WriteCryptedKey
    refine ⟨rfl, ?_, ?_, ?_, ?_⟩ <;> simp [mem_eraseKV, mem_insertKV]
  · intro hor
    rcases hor with hm | hk
    · subst hm
      unfold WalletBatch.WriteCryptedKey
      simp
    · subst hk
      cases okMeta with
      | false =>
        unfold WalletBatch.WriteCryptedKey
        simp
      | true =>
        unfold WalletBatch.WriteCryptedKey
        refine ⟨by simp, ?_, ?_⟩ <;> intro hmem <;> simp [mem_insertKV, hmem]

/-- Witness for claim C10: a successful call on a store holding the
plaintext `key` record erases it while writing `keymeta` and `ckey`;
a call whose `ckey` write fails returns `false` and leaves the
plaintext record in place. -/
theorem writeCryptedKey_spec_witness :
    (("keymeta", 7) ∈ (WalletBatch.WriteCryptedKey true true 7 [("key", 7)]).2
     ∧ ("key", 7) ∉ (WalletBatch.WriteCryptedKey true true 7 [("key", 7)]).2)
    ∧ ((WalletBatch.WriteCryptedKey true false 7 [("key", 7)]).1 = false
       ∧ ("key", 7) ∈ (WalletBatch.WriteCryptedKey true false 7 [("key", 7)]).2) :=
  ⟨⟨((writeCryptedKey_spec true true 7 [("key", 7)]).1 rfl rfl).2.1,
    ((writeCryptedKey_spec true true 7 [("key", 7)]).1 rfl rfl).2.2.2.1⟩,
   ⟨((writeCryptedKey_spec true false 7 [("key", 7)]).2 (Or.inr rfl)).1,
    ((writeCryptedKey_spec true false 7 [("key", 7)]).2 (Or.inr rfl)).2.1 (by decide)⟩⟩

/-- The head of a nonempty `dropWhile` result fails the predicate. -/
theorem dropWhile_head_false (p : Nat → Bool) :
    ∀ (l : List Nat) (x : Nat) (t : List Nat), l.dropWhile p = x :: t → p x = false := by
  intro l
  induction l with
  | nil => intro x t h; exact absurd h (by simp)
  | cons a l ih =>
    intro x t h
    rw [List.dropWhile_cons] at h
    by_cases hp : p a
    · rw [if_pos hp] at h
      exact ih x t h
    · rw [if_neg hp] at h
      injection h with h1 _
      subst h1
      simpa using hp

/-- Characterization of the merged erase walk on sorted inputs: the
erase attempts are exactly the hashes present in both lists, in sorted
order and independently of which erasures fail, and the failure flag is
raised exactly when one of the attempted erasures fails. -/
theorem zapWalk_spec (eraseOk : Nat → Bool) :
    ∀ (s1 s2 : List Nat), List.Sorted (· ≤ ·) s1 → s1.Nodup → List.Sorted (· ≤ ·) s2 →
      (zapWalk eraseOk s2 s1).2 = s1.filter (fun h => decide (h ∈ s2))
      ∧ (zapWalk eraseOk s2 s1).1
          = (s1.filter (fun h => decide (h ∈ s2))).any (fun h => !(eraseOk h)) := by
  intro s1
  induction s1 with
  | nil => intro s2 _ _ _; exact ⟨rfl, rfl⟩
  | cons hash rest ih =>
    intro s2 hs1 hn1 hs2
    have hrest : List.Sorted (· ≤ ·) rest := (List.sorted_cons.mp hs1).2
    have hnrest : rest.Nodup := (List.nodup_cons.mp hn1).2
    have hlt : ∀ z ∈ rest, hash < z := by
      intro z hz
      exact lt_of_le_of_ne ((List.sorted_cons.mp hs1).1 z hz)
        (fun heq => (List.nodup_cons.mp hn1).1 (heq ▸ hz))
    have htw : ∀ y ∈ s2.takeWhile (fun x => decide (x < hash)), y < hash := by
      intro y hy
      simpa using List.mem_takeWhile_imp hy
    have hsplit := List.takeWhile_append_dropWhile (fun x => decide (x < hash)) s2
    have hmem2 : ∀ z, hash ≤ z →
        (z ∈ s2 ↔ z ∈ s2.dropWhile (fun x => decide (x < hash))) := by
      intro z hz
      constructor
      · intro hzs
        rw [← hsplit] at hzs
        rcases List.mem_append.mp hzs with hy | hy
        · exact absurd (htw z hy) (not_lt.mpr hz)
        · exact hy
      · intro hy
        exact (List.dropWhile_sublist _).subset hy
    cases hvin : s2.dropWhile (fun x => decide (x < hash)) with
    | nil =>
      have hnot : ∀ z ∈ (hash :: rest), z ∉ s2 := by
        intro z hz hzs
        have hhz : hash ≤ z := by
          rcases List.mem_cons.mp hz with rfl | hz2
          · exact le_rfl
          · exact le_of_lt (hlt z hz2)
        have hmem := (hmem2 z hhz).mp hzs
        rw [hvin] at hmem
        exact absurd hmem (List.not_mem_nil z)
      have hfil : (hash :: rest).filter (fun h => decide (h ∈ s2)) = [] := by
        rw [List.filter_eq_nil_iff]
        intro a ha
        simpa using hnot a ha
      have hzap : zapWalk eraseOk s2 (hash :: rest) = (false, []) := by
        rw [zapWalk, hvin]
      rw [hzap, hfil]
      exact ⟨rfl, rfl⟩
    | cons x t =>
      have hs2' : List.Sorted (· ≤ ·) (x :: t) := by
        have hsb := hs2.sublist (List.dropWhile_sublist (fun x => decide (x < hash)))
        rwa [hvin] at hsb
      have htrans : ∀ z ∈ rest, (decide (z ∈ x :: t)) = (decide (z ∈ s2)) := by
        intro z hz
        have hiff := hmem2 z (le_of_lt (hlt z hz))
        rw [hvin] at hiff
        exact decide_eq_decide.mpr hiff.symm
      have hfr : rest.filter (fun h => decide (h ∈ x :: t))
          = rest.filter (fun h => decide (h ∈ s2)) := List.filter_congr htrans
      have ihr := ih (x :: t) hrest hnrest hs2'
      by_cases hxh : x = hash
      · have hhs2 : hash ∈ s2 := by
          have hmemd : hash ∈ s2.dropWhile (fun x => decide (x < hash)) := by
            rw [hvin, hxh]
            exact List.mem_cons_self hash t
          exact (List.dropWhile_sublist _).subset hmemd
        have hzap : zapWalk eraseOk s2 (hash :: rest) =
            ((!(eraseOk hash)) || (zapWalk eraseOk (x :: t) rest).1,
             hash :: (zapWalk eraseOk (x :: t) rest).2) := by
          rw [zapWalk, hvin]
          dsimp only
          rw [if_pos hxh]
        have hfc : (hash :: rest).filter (fun h => decide (h ∈ s2))
            = hash :: rest.filter (fun h => decide (h ∈ s2)) :=
          List.filter_cons_of_pos (by simpa using hhs2)
        rw [hzap, hfc]
        constructor
        · show hash :: (zapWalk eraseOk (x :: t) rest).2 = _
          rw [ihr.1, hfr]
        · show ((!(eraseOk hash)) || (zapWalk eraseOk (x :: t) rest).1) = _
          rw [List.any_cons, ihr.2, hfr]
      · have hxge : hash ≤ x := by
          have hpf := dropWhile_head_false (fun x => decide (x < hash)) s2 x t hvin
          have hnl : ¬ (x < hash) := by simpa using hpf
          exact le_of_not_lt hnl
        have hns : hash ∉ s2 := by
          intro hzs
          have hmem := (hmem2 hash le_rfl).mp hzs
          rw [hvin] at hmem
          rcases List.mem_cons.mp hmem with heq | hmt
          · exact hxh heq.symm
          · exact hxh (le_antisymm ((List.sorted_cons.mp hs2').1 hash hmt) hxge)
        have hzap : zapWalk eraseOk s2 (hash :: rest) = zapWalk eraseOk (x :: t) rest := by
          rw [zapWalk, hvin]
          dsimp only
          rw [if_neg hxh]
        have hfc : (hash :: rest).filter (fun h => decide (h ∈ s2))
            = rest.filter (fun h => decide (h ∈ s2)) :=
          List.filter_cons_of_neg (by simpa using hns)
        rw [hzap, hfc, ← hfr]
        exact ihr

/-- Claim C9: `ZapSelectTx` sorts both the discovered and the requested
hash lists and walks them in merged sorted order; the attempted
erasures (the `vTxHashOut` entries) are exactly the hashes present in
both lists, in sorted order and regardless of which erasures fail — so
every remaining erasure is still attempted after an individual failure
— and the call returns `CORRUPT` exactly when some attempted erase
failed, `LOAD_OK` otherwise. -/
theorem zapSelectTx_spec (eraseOk : Nat → Bool) (vTxHash vTxHashIn : List Nat)
    (h1 : vTxHash.Nodup) (h2 : vTxHashIn.Nodup) :
    (∀ h, h ∈ (WalletBatch.ZapSelectTx eraseOk DBErrors.LOAD_OK vTxHash vTxHashIn).2
       ↔ (h ∈ vTxHash ∧ h ∈ vTxHashIn))
    ∧ (WalletBatch.ZapSelectTx eraseOk DBErrors.LOAD_OK vTxHash vTxHashIn).2
        = (List.insertionSort (fun a b : Nat => a ≤ b) vTxHash).filter
            (fun h => decide (h ∈ vTxHashIn))
    ∧ ((WalletBatch.ZapSelectTx eraseOk DBErrors.LOAD_OK vTxHash vTxHashIn).1
          = DBErrors.CORRUPT
        ↔ ∃ h, h ∈ (WalletBatch.ZapSelectTx eraseOk DBErrors.LOAD_OK vTxHash vTxHashIn).2
            ∧ eraseOk h = false)
    ∧ ((WalletBatch.ZapSelectTx eraseOk DBErrors.LOAD_OK vTxHash vTxHashIn).1
          = DBErrors.CORRUPT
       ∨ (WalletBatch.ZapSelectTx eraseOk DBErrors.LOAD_OK vTxHash vTxHashIn).1
          = DBErrors.LOAD_OK) := by
  have hz : WalletBatch.ZapSelectTx eraseOk DBErrors.LOAD_OK vTxHash vTxHashIn
      = (if (zapWalk eraseOk (List.insertionSort (fun a b : Nat => a ≤ b) vTxHashIn)
              (List.insertionSort (fun a b : Nat => a ≤ b) vTxHash)).1
         then DBErrors.CORRUPT else DBErrors.LOAD_OK,
         (zapWalk eraseOk (List.insertionSort (fun a b : Nat => a ≤ b) vTxHashIn)
            (List.insertionSort (fun a b : Nat => a ≤ b) vTxHash)).2) := by
    unfold WalletBatch.ZapSelectTx
    simp
  have hp1 := List.perm_insertionSort (fun a b : Nat => a ≤ b) vTxHash
  have hp2 := List.perm_insertionSort (fun a b : Nat => a ≤ b) vTxHashIn
  have hsort1 : List.Sorted (· ≤ ·)
      (List.insertionSort (fun a b : Nat => a ≤ b) vTxHash) :=
    List.sorted_insertionSort (fun a b : Nat => a ≤ b) vTxHash
  have hsort2 : List.Sorted (· ≤ ·)
      (List.insertionSort (fun a b : Nat => a ≤ b) vTxHashIn) :=
    List.sorted_insertionSort (fun a b : Nat => a ≤ b) vTxHashIn
  have hnd1 : (List.insertionSort (fun a b : Nat => a ≤ b) vTxHash).Nodup :=
    hp1.nodup_iff.mpr h1
  have hw := zapWalk_spec eraseOk (List.insertionSort (fun a b : Nat => a ≤ b) vTxHash)
    (List.insertionSort (fun a b : Nat => a ≤ b) vTxHashIn) hsort1 hnd1 hsort2
  have hfcongr : (List.insertionSort (fun a b : Nat => a ≤ b) vTxHash).filter
        (fun h => decide (h ∈ List.insertionSort (fun a b : Nat => a ≤ b) vTxHashIn))
      = (List.insertionSort (fun a b : Nat => a ≤ b) vTxHash).filter
          (fun h => decide (h ∈ vTxHashIn)) := by
    refine List.filter_congr ?_
    intro a _
    exact decide_eq_decide.mpr hp2.mem_iff
  have hout : (WalletBatch.ZapSelectTx eraseOk DBErrors.LOAD_OK vTxHash vTxHashIn).2
      = (List.insertionSort (fun a b : Nat => a ≤ b) vTxHash).filter
          (fun h => decide (h ∈ vTxHashIn)) := by
    rw [hz]
    show (zapWalk eraseOk _ _).2 = _
    rw [hw.1, hfcongr]
  have hres : (WalletBatch.ZapSelectTx eraseOk DBErrors.LOAD_OK vTxHash vTxHashIn).1
      = (if (zapWalk eraseOk (List.insertionSort (fun a b : Nat => a ≤ b) vTxHashIn)
              (List.insertionSort (fun a b : Nat => a ≤ b) vTxHash)).1
         then DBErrors.CORRUPT else DBErrors.LOAD_OK) := by
    rw [hz]
  refine ⟨?_, hout, ?_, ?_⟩
  · intro h
    rw [hout, List.mem_filter]
    constructor
    · intro hx
      exact ⟨hp1.mem_iff.mp hx.1, by simpa using hx.2⟩
    · intro hx
      exact ⟨hp1.mem_iff.mpr hx.1, by simpa using hx.2⟩
  · rw [hres, hout]
    constructor
    · intro hcor
      by_cases hb : (zapWalk eraseOk (List.insertionSort (fun a b : Nat => a ≤ b) vTxHashIn)
          (List.insertionSort (fun a b : Nat => a ≤ b) vTxHash)).1
      · have hany : ((List.insertionSort (fun a b : Nat => a ≤ b) vTxHash).filter
            (fun h => decide (h ∈ vTxHashIn))).any (fun h => !(eraseOk h)) = true := by
          rw [← hfcongr, ← hw.2]
          exact hb
        rcases List.any_eq_true.mp hany with ⟨h, hhm, hhe⟩
        exact ⟨h, hhm, by simpa using hhe⟩
      · rw [if_neg hb] at hcor
        exact absurd hcor (by decide)
    · rintro ⟨h, hhm, hhe⟩
      have hany : ((List.insertionSort (fun a b : Nat => a ≤ b) vTxHash).filter
          (fun h => decide (h ∈ vTxHashIn))).any (fun h => !(eraseOk h)) = true :=
        List.any_eq_true.mpr ⟨h, hhm, by simpa using hhe⟩
      rw [← hfcongr, ← hw.2] at hany
      rw [if_pos hany]
  · rw [hres]
    by_cases hb : (zapWalk eraseOk (List.insertionSort (fun a b : Nat => a ≤ b) vTxHashIn)
        (List.insertionSort (fun a b : Nat => a ≤ b) vTxHash)).1
    · exact Or.inl (by rw [if_pos hb])
    · exact Or.inr (by rw [if_neg hb])

/-- Witness for claim C9 at concrete hash lists: hashes 2 and 3 are in
both lists and are attempted; the erase of 3 fails, so the call returns
`CORRUPT` while 2 is still erased. -/
theorem zapSelectTx_spec_witness :
    2 ∈ (WalletBatch.ZapSelectTx (fun h => !(h == 3)) DBErrors.LOAD_OK
          [3, 1, 2] [2, 4, 3]).2
    ∧ (WalletBatch.ZapSelectTx (fun h => !(h == 3)) DBErrors.LOAD_OK
          [3, 1, 2] [2, 4, 3]).1 = DBErrors.CORRUPT :=
  ⟨((zapSelectTx_spec (fun h => !(h == 3)) [3, 1, 2] [2, 4, 3] (by decide) (by decide)).1
      2).mpr (by decide),
   (zapSelectTx_spec (fun h => !(h == 3)) [3, 1, 2] [2, 4, 3] (by decide)
      (by decide)).2.2.1.mpr
     ⟨3, ((zapSelectTx_spec (fun h => !(h == 3)) [3, 1, 2] [2, 4, 3] (by decide)
        (by decide)).1 3).mpr (by decide), by decide⟩⟩

/-- When every delete succeeds, the reverse loop of the retention sweep
keeps the files counted up to `nWalletBackups` and deletes exactly the
remaining suffix of the newest-first list, with no warning. -/
theorem sweepLoop_success (nWalletBackups : Int) :
    ∀ (l : List BackupFile) (c : Int),
      sweepLoop nWalletBackups (fun _ => true) c l =
        (true, (l.drop (nWalletBackups - c).toNat).map (fun f => f.path), none) := by
  intro l
  induction l with
  | nil => intro c; simp [sweepLoop]
  | cons f rest ih =>
    intro c
    by_cases h : nWalletBackups < c + 1
    · have h0 : (nWalletBackups - c).toNat = 0 := by omega
      have h1 : (nWalletBackups - (c + 1)).toNat = 0 := by omega
      rw [sweepLoop]
      simp only [if_pos h, ih, h0, h1]
      simp
    · have h2 : (nWalletBackups - c).toNat = (nWalletBackups - (c + 1)).toNat + 1 := by omega
      rw [sweepLoop]
      simp only [if_neg h, ih, h2]
      simp

/-- With every delete succeeding, the retention pass deletes exactly
the paths beyond the first `nWalletBackups` in the newest-first
ordering of the matching backup files. -/
theorem autoBackupRetention_success_eq (nWalletBackups : Int) (walletFileName : String)
    (dirFiles : List BackupFile) :
    AutoBackupRetention nWalletBackups walletFileName (fun _ => true) dirFiles =
      (true,
       (((List.insertionSort timeLE
            (dirFiles.filter (fun f => f.stem == walletFileName))).reverse.drop
           nWalletBackups.toNat).map (fun f => f.path)),
       none) := by
  unfold AutoBackupRetention
  rw [sweepLoop_success]
  norm_num

/-- On a newest-first list with distinct times and distinct paths,
deleting the paths beyond position `k` keeps exactly `min k
(length)` files, and every deleted file is strictly older than every
kept one. -/
theorem keep_drop_spec (k : Nat) (desc : List BackupFile)
    (hd : desc.Pairwise (fun a b => timeLE b a))
    (hmt : (desc.map (fun f => f.mtime)).Nodup)
    (hpt : (desc.map (fun f => f.path)).Nodup) :
    (desc.filter (fun f => decide (f.path ∉ (desc.drop k).map (fun f => f.path)))).length
      = min k desc.length
    ∧ ∀ f ∈ desc, f.path ∈ (desc.drop k).map (fun f => f.path) →
      ∀ g ∈ desc, g.path ∉ (desc.drop k).map (fun f => f.path) → f.mtime < g.mtime := by
  have hnd2 : ((desc.take k).map (fun f => f.path)
      ++ (desc.drop k).map (fun f => f.path)).Nodup := by
    rw [← List.map_append, List.take_append_drop]
    exact hpt
  have hdisj := (List.nodup_append.mp hnd2).2.2
  have hkeep : ∀ f ∈ desc.take k, f.path ∉ (desc.drop k).map (fun f => f.path) := by
    intro f hf hfd
    exact hdisj (List.mem_map_of_mem _ hf) hfd
  have hmemsplit : ∀ f ∈ desc, f ∈ desc.take k ∨ f ∈ desc.drop k := by
    intro f hf
    have : f ∈ desc.take k ++ desc.drop k := by
      rw [List.take_append_drop]
      exact hf
    exact List.mem_append.mp this
  have hpw : ∀ g ∈ desc.take k, ∀ f ∈ desc.drop k, f.mtime ≤ g.mtime := by
    have hd2 : (desc.take k ++ desc.drop k).Pairwise (fun a b => timeLE b a) := by
      rw [List.take_append_drop]
      exact hd
    intro g hg f hf
    exact (List.pairwise_append.mp hd2).2.2 g hg f hf
  constructor
  · have hf1 : ∀ (p : BackupFile → Bool),
        desc.filter p = (desc.take k).filter p ++ (desc.drop k).filter p := by
      intro p
      conv_lhs => rw [← List.take_append_drop k desc]
      rw [List.filter_append]
    have hf2 : (desc.take k).filter
        (fun f => decide (f.path ∉ (desc.drop k).map (fun f => f.path))) = desc.take k := by
      rw [List.filter_eq_self]
      intro a ha
      exact decide_eq_true (hkeep a ha)
    have hf3 : (desc.drop k).filter
        (fun f => decide (f.path ∉ (desc.drop k).map (fun f => f.path))) = [] := by
      rw [List.filter_eq_nil_iff]
      intro a ha
      simp only [decide_eq_true_eq]
      intro hna
      exact hna (List.mem_map_of_mem _ ha)
    rw [hf1 (fun f => decide (f.path ∉ (desc.drop k).map (fun f => f.path))), hf2, hf3,
      List.append_nil, List.length_take]
  · intro f hf hfd g hg hgnd
    have hfdrop : f ∈ desc.drop k := by
      rcases hmemsplit f hf with hft | hfd2
      · exact absurd hfd (hkeep f hft)
      · exact hfd2
    have hgtake : g ∈ desc.take k := by
      rcases hmemsplit g hg with hgt | hgd2
      · exact hgt
      · exact absurd (List.mem_map_of_mem _ hgd2) hgnd
    have hle : f.mtime ≤ g.mtime := hpw g hgtake f hfdrop
    have hne : f ≠ g := by
      intro heq
      exact hdisj (List.mem_map_of_mem _ (heq ▸ hgtake)) hfd
    have hmne : f.mtime ≠ g.mtime := by
      intro heq
      exact hne (List.inj_on_of_nodup_map hmt hf hg heq)
    exact lt_of_le_of_ne hle hmne

/-- When the retention sweep aborts, the surfaced warning names a path
whose delete failed. -/
theorem sweepLoop_fail (nWalletBackups : Int) (removeOk : Nat → Bool) :
    ∀ (l : List BackupFile) (c : Int),
      (sweepLoop nWalletBackups removeOk c l).1 = false →
      ∃ p, (sweepLoop nWalletBackups removeOk c l).2.2 = some p ∧ removeOk p = false := by
  intro l
  induction l with
  | nil => intro c h; exact absurd h (by simp [sweepLoop])
  | cons f rest ih =>
    intro c h
    rw [sweepLoop] at h ⊢
    by_cases h1 : nWalletBackups < c + 1
    · rw [if_pos h1] at h ⊢
      by_cases h2 : removeOk f.path
      · rw [if_pos h2] at h ⊢
        exact ih (c + 1) h
      · rw [if_neg h2] at h ⊢
        exact ⟨f.path, rfl, Bool.eq_false_iff.mpr h2⟩
    · rw [if_neg h1] at h ⊢
      exact ih (c + 1) h

/-- Claim C3 (counterexample): with retention 1 and three matching
backups of times 1, 2, 3, a failing delete of the file with time 2
aborts the whole sweep with that failure surfaced: nothing is deleted
— not even the oldest, deletable file (path 1) — so all 3 files
remain instead of min(K+1, N) = 1, refuting both the continue-past-
failures clause and the retention count as stated. -/
theorem autoBackup_abort_cx :
    AutoBackupRetention 1 "wallet.dat" (fun p => !(p == 2))
        [⟨"wallet.dat", 1, 1⟩, ⟨"wallet.dat", 2, 2⟩, ⟨"wallet.dat", 3, 3⟩]
      = (false, [], some 2)
    ∧ (fun p : Nat => !(p == 2)) 1 = true
    ∧ (([(⟨"wallet.dat", 1, 1⟩ : BackupFile), ⟨"wallet.dat", 2, 2⟩,
          ⟨"wallet.dat", 3, 3⟩].filter
        (fun f => decide (f.path ∉
          (AutoBackupRetention 1 "wallet.dat" (fun p => !(p == 2))
            [⟨"wallet.dat", 1, 1⟩, ⟨"wallet.dat", 2, 2⟩,
             ⟨"wallet.dat", 3, 3⟩]).2.1))).length = 3)
    ∧ min (2 + 1) 1 = 1
    ∧ (3 : Nat) ≠ 1 := by
  refine ⟨by decide, by decide, by decide, by decide, by decide⟩

/-- Claim C3 (amended): when every delete succeeds, one retention pass
over a backup directory whose matching files (stem equal to the
wallet's base name) have pairwise-distinct modification times and paths
keeps exactly `min N (K+1)` of the `K+1` matching files — deleting the
oldest by modification time, every deleted file being strictly older
than every kept one; when a delete fails, the sweep aborts at once,
surfacing that failing path as the warning (later, older files are not
attempted, as the counterexample shows). -/
theorem autoBackup_retention (nWalletBackups : Int) (walletFileName : String)
    (dirFiles : List BackupFile)
    (hmt : ((dirFiles.filter (fun f => f.stem == walletFileName)).map
        (fun f => f.mtime)).Nodup)
    (hpt : ((dirFiles.filter (fun f => f.stem == walletFileName)).map
        (fun f => f.path)).Nodup) :
    (AutoBackupRetention nWalletBackups walletFileName (fun _ => true) dirFiles).1 = true
    ∧ ((dirFiles.filter (fun f => f.stem == walletFileName)).filter
        (fun f => decide (f.path ∉
          (AutoBackupRetention nWalletBackups walletFileName (fun _ => true)
            dirFiles).2.1))).length
      = min nWalletBackups.toNat
          (dirFiles.filter (fun f => f.stem == walletFileName)).length
    ∧ (∀ f ∈ dirFiles.filter (fun f => f.stem == walletFileName),
        f.path ∈ (AutoBackupRetention nWalletBackups walletFileName (fun _ => true)
            dirFiles).2.1 →
        ∀ g ∈ dirFiles.filter (fun f => f.stem == walletFileName),
          g.path ∉ (AutoBackupRetention nWalletBackups walletFileName (fun _ => true)
            dirFiles).2.1 →
          f.mtime < g.mtime)
    ∧ (∀ (removeOk : Nat → Bool),
        (AutoBackupRetention nWalletBackups walletFileName removeOk dirFiles).1 = false →
        ∃ p, (AutoBackupRetention nWalletBackups walletFileName removeOk dirFiles).2.2
            = some p ∧ removeOk p = false) := by
  have heq := autoBackupRetention_success_eq nWalletBackups walletFileName dirFiles
  have hpm := List.perm_insertionSort timeLE
    (dirFiles.filter (fun f => f.stem == walletFileName))
  have hpd : (List.insertionSort timeLE
        (dirFiles.filter (fun f => f.stem == walletFileName))).reverse.Perm
      (dirFiles.filter (fun f => f.stem == walletFileName)) :=
    (List.reverse_perm _).trans hpm
  have hsm : List.Sorted timeLE (List.insertionSort timeLE
      (dirFiles.filter (fun f => f.stem == walletFileName))) :=
    List.sorted_insertionSort timeLE (dirFiles.filter (fun f => f.stem == walletFileName))
  have hdp : (List.insertionSort timeLE
      (dirFiles.filter (fun f => f.stem == walletFileName))).reverse.Pairwise
        (fun a b => timeLE b a) := by
    rw [List.pairwise_reverse]
    exact hsm
  have hmtd : ((List.insertionSort timeLE
      (dirFiles.filter (fun f => f.stem == walletFileName))).reverse.map
        (fun f => f.mtime)).Nodup :=
    ((hpd.map (fun f => f.mtime)).nodup_iff).mpr hmt
  have hptd : ((List.insertionSort timeLE
      (dirFiles.filter (fun f => f.stem == walletFileName))).reverse.map
        (fun f => f.path)).Nodup :=
    ((hpd.map (fun f => f.path)).nodup_iff).mpr hpt
  have hks := keep_drop_spec nWalletBackups.toNat
    (List.insertionSort timeLE
      (dirFiles.filter (fun f => f.stem == walletFileName))).reverse hdp hmtd hptd
  refine ⟨by rw [heq], ?_, ?_, ?_⟩
  · rw [heq]
    have hlperm := hpd.symm.filter
      (fun f => decide (f.path ∉
        ((List.insertionSort timeLE
          (dirFiles.filter (fun f => f.stem == walletFileName))).reverse.drop
            nWalletBackups.toNat).map (fun f => f.path)))
    rw [hlperm.length_eq, hks.1, hpd.length_eq]
  · rw [heq]
    intro f hf hfd g hg hgnd
    exact hks.2 f (hpd.mem_iff.mpr hf) hfd g (hpd.mem_iff.mpr hg) hgnd
  · intro removeOk hfail
    unfold AutoBackupRetention at hfail ⊢
    exact sweepLoop_fail nWalletBackups removeOk _ 0 hfail

/-- Witness for the amended claim C3: four directory files of which
three match the wallet's stem, retention 2 → the 2 newest matching
files remain. -/
theorem autoBackup_retention_witness :
    (([(⟨"w", 1, 5⟩ : BackupFile), ⟨"w", 2, 9⟩, ⟨"w", 3, 7⟩, ⟨"z", 9, 1⟩].filter
        (fun f => f.stem == "w")).filter
      (fun f => decide (f.path ∉
        (AutoBackupRetention 2 "w" (fun _ => true)
          [⟨"w", 1, 5⟩, ⟨"w", 2, 9⟩, ⟨"w", 3, 7⟩, ⟨"z", 9, 1⟩]).2.1))).length
      = min (2 : Int).toNat
          ([(⟨"w", 1, 5⟩ : BackupFile), ⟨"w", 2, 9⟩, ⟨"w", 3, 7⟩, ⟨"z", 9, 1⟩].filter
            (fun f => f.stem == "w")).length :=
  (autoBackup_retention 2 "w" [⟨"w", 1, 5⟩, ⟨"w", 2, 9⟩, ⟨"w", 3, 7⟩, ⟨"z", 9, 1⟩]
    (by decide) (by decide)).2.1
